import Mathlib

/-!
Shallow embedding of the scraping orchestrator of `apps/crawler-v3`
(`src/index.ts` and `src/utils.ts`) together with proofs about the
behaviour its specification describes: term planning, term-code
derivation, integer configuration parsing, pacing-delay computation,
the per-course scrape step with its shared session counters and abort
flag, the bounded pool execution with the result drain loop, and the
per-term main loop with partial persistence and index writing.
-/

namespace Crawler

/-! ## Term planning (`utils.ts`, `generateTermsToScrape`) -/

/-- The fixed UIUC term cycle list, `termOrder` in `utils.ts`. -/
def termOrder : List String := ["spring", "summer", "fall", "winter"]

/-- Month-to-current-term mapping from the head of `generateTermsToScrape`:
month 1 is winter, 2-5 spring, 6-8 summer, 9-12 fall, and the dead
final `else` branch yields spring. -/
def currentTermOf (month : Nat) : String :=
  if month ≤ 1 then "winter"
  else if month ≤ 5 then "spring"
  else if month ≤ 8 then "summer"
  else if month ≤ 12 then "fall"
  else "spring"

/-- The backward walk of `generateTermsToScrape` (lines 57-74 of
`utils.ts`): emit `termOrder[idx]` with the current year, then move
`idx` backwards; on wrapping past the start of the list reset `idx`
to the end and decrement the year, otherwise decrement the year when
the emitted term was spring (that branch is unreachable because
spring sits at index 0, but it is kept as written). -/
def walkSteps : Nat → Nat → Int → List (Int × String)
  | 0, _, _ => []
  | n + 1, idx, year =>
    if idx = 0 then
      (year, termOrder.getD idx "") :: walkSteps n (termOrder.length - 1) (year - 1)
    else if termOrder.getD idx "" = "spring" then
      (year, termOrder.getD idx "") :: walkSteps n (idx - 1) (year - 1)
    else
      (year, termOrder.getD idx "") :: walkSteps n (idx - 1) year

/-- `generateTermsToScrape` from `utils.ts`, parameterised by the
current calendar year and month instead of reading the clock. The
winter adjustment on lines 52-54 and 61 of the source assigns `year`
to itself, so it does not appear as a separate computation. -/
def generateTermsToScrape (currentYear : Int) (currentMonth : Nat) (numTerms : Nat) :
    List (Int × String) :=
  let currentTerm := currentTermOf currentMonth
  let start := (termOrder.indexOf currentTerm)
  walkSteps numTerms start currentYear

/-- Index of a term name inside the cycle, spring first. -/
def termIdx (t : String) : Int :=
  if t = "spring" then 0
  else if t = "summer" then 1
  else if t = "fall" then 2
  else 3

/-- Chronological position of a (year, term) pair along the fixed
cycle spring, summer, fall, winter, next year's spring. -/
def cyclePos (p : Int × String) : Int := 4 * p.1 + termIdx p.2

/-- One forward step of the fixed cycle: spring to summer to fall to
winter to the next year's spring. -/
def cycleNext (p : Int × String) : Int × String :=
  if p.2 = "spring" then (p.1, "summer")
  else if p.2 = "summer" then (p.1, "fall")
  else if p.2 = "fall" then (p.1, "winter")
  else (p.1 + 1, "spring")

/-! ## Term codes (`utils.ts`, `getTermCode`) -/

/-- The fixed term-code table of `getTermCode`. -/
def termCodes : List (String × String) :=
  [("spring", "02"), ("summer", "05"), ("fall", "08"), ("winter", "12")]

/-- ASCII lowercasing of one character, the relevant behaviour of
JavaScript `toLowerCase` on the strings this module handles. -/
def jsCharToLower (c : Char) : Char :=
  if 'A' ≤ c ∧ c ≤ 'Z' then Char.ofNat (c.toNat + 32) else c

/-- JavaScript `term.toLowerCase()` on ASCII strings. -/
def jsToLower (s : String) : String := ⟨s.toList.map jsCharToLower⟩

/-- `getTermCode` from `utils.ts`: look the lowercased term name up in
the fixed table and concatenate the year with the two-digit code;
throw (modelled as `Except.error`) when the name is missing. -/
def getTermCode (year term : String) : Except String String :=
  match termCodes.lookup (jsToLower term) with
  | some code => .ok (year ++ code)
  | none => .error ("Invalid term: " ++ term)

/-! ## Integer configuration (`utils.ts`, `getIntConfig`) -/

/-- A JavaScript number restricted to what `parseInt` can produce:
an integer or NaN. -/
inductive JSNumber
  | nan
  | int (n : Int)
deriving DecidableEq, Repr

/-- Decimal value of a digit list. -/
def digitsVal (cs : List Char) : Nat :=
  cs.foldl (fun a c => a * 10 + (c.toNat - Char.toNat '0')) 0

/-- JavaScript `parseInt(s, 10)`: skip leading whitespace, read an
optional sign, then the longest prefix of decimal digits; NaN when
there is no digit. It is a total function and never throws. -/
def jsParseInt (s : String) : JSNumber :=
  let cs := s.toList.dropWhile (fun c => c = ' ' ∨ c = '\t' ∨ c = '\n' ∨ c = '\r')
  let signAndRest : Int × List Char :=
    match cs with
    | '-' :: rest => (-1, rest)
    | '+' :: rest => (1, rest)
    | _ => (1, cs)
  let digits := signAndRest.2.takeWhile Char.isDigit
  if digits.isEmpty then .nan
  else .int (signAndRest.1 * (digitsVal digits : Int))

/-- `getIntConfig` from `utils.ts`: `null` (here `none`) when the
environment variable is absent, otherwise the `parseInt` result. The
source wraps `parseInt` in try/catch, but `parseInt` is total, so the
catch branch that would return `null` is unreachable and the
translation has no failure path for a present value. -/
def getIntConfig (envValue : Option String) : Option JSNumber :=
  match envValue with
  | none => none
  | some v => some (jsParseInt v)

/-- The `?? d` nullish-coalescing applied to a config lookup, as in
`getIntConfig('CONCURRENCY') ?? 2`: the default replaces only
null/undefined, never NaN. -/
def nullishOr (v : Option JSNumber) (d : JSNumber) : JSNumber :=
  v.getD d

/-! ## Pacing delay (`index.ts`, `sleep`) -/

/-- The delay computed by `sleep` in `index.ts` as a function of the
`Math.random()` sample `u` (which lies in `[0, 1)`):
`max(100, ms + ms * jitterPercent * (u * 2 - 1))`. -/
def sleepDelay (ms jitterPercent u : ℚ) : ℚ :=
  let jitter := ms * jitterPercent * (u * 2 - 1)
  max 100 (ms + jitter)

/-- Modelled from the spec: the PacingGate formula
`max(100, baseMs + baseMs * jitterFraction * sample)` over a jitter
sample in `[-1, 1]`, used to compare with `sleepDelay`. -/
def specDelayFor (baseMs jitterFraction sample : ℚ) : ℚ :=
  max 100 (baseMs + baseMs * jitterFraction * sample)

/-! ## Session state and the per-course scrape step (`index.ts`) -/

/-- The module-level mutable state of `index.ts` lines 32-36:
`totalRequests`, `rateLimitCount`, `forbidden403Count` (the spec's
`hardBlockCount`) and the `abortRequested` flag. -/
structure Session where
  totalRequests : Nat
  rateLimitCount : Nat
  forbidden403Count : Nat
  abortRequested : Bool
deriving DecidableEq, Repr

/-- State of the globals at module load. -/
def initialSession : Session :=
  { totalRequests := 0, rateLimitCount := 0, forbidden403Count := 0,
    abortRequested := false }

/-- What the upstream server does with one course fetch: a payload,
HTTP 403, HTTP 429, or some other failure. Payloads are abstracted to
a number. -/
inductive FetchOutcome
  | ok (payload : Nat)
  | err403
  | err429
  | errOther
deriving DecidableEq, Repr

/-- The value resolved by `scrapeWithDelay` for one course:
`{ course, data, success }`, with the course abstracted to an index
and `data` to an optional payload. -/
structure ScrapeResult where
  course : Nat
  data : Option Nat
  success : Bool
deriving DecidableEq, Repr

/-- Externally visible actions of one task, used to state that a
skipped task performs no pacing delay and no network call, and that
the abort check precedes the request. -/
inductive Effect
  | checkFlag
  | delay
  | fetch
deriving DecidableEq, Repr

/-- Everything one `scrapeWithDelay` call produces: the updated
session, the resolved result, the effect trace, and whether the
excessive-rate-limit advisory warning was printed. -/
structure StepOut where
  session : Session
  result : ScrapeResult
  effects : List Effect
  rateLimitWarning : Bool
deriving DecidableEq, Repr

/-- The skip result returned when the abort flag is already set:
`{ course, data: null, success: false }` with no delay and no fetch. -/
def skipOut (s : Session) (course : Nat) : StepOut :=
  { session := s, result := { course := course, data := none, success := false },
    effects := [.checkFlag], rateLimitWarning := false }

/-- The part of `scrapeWithDelay` after the abort check and the pacing
sleep (lines 53-85 of `index.ts`): increment `totalRequests`, perform
the fetch, and classify the outcome — 403 increments
`forbidden403Count` and sets `abortRequested`, 429 increments
`rateLimitCount` and warns once the count exceeds 5, other failures
change no counter; only a successful fetch carries data. -/
def applyOutcome (s : Session) (course : Nat) (o : FetchOutcome) : StepOut :=
  let s1 := { s with totalRequests := s.totalRequests + 1 }
  match o with
  | .ok payload =>
    { session := s1,
      result := { course := course, data := some payload, success := true },
      effects := [.checkFlag, .delay, .fetch], rateLimitWarning := false }
  | .err403 =>
    { session := { s1 with forbidden403Count := s1.forbidden403Count + 1,
                           abortRequested := true },
      result := { course := course, data := none, success := false },
      effects := [.checkFlag, .delay, .fetch], rateLimitWarning := false }
  | .err429 =>
    { session := { s1 with rateLimitCount := s1.rateLimitCount + 1 },
      result := { course := course, data := none, success := false },
      effects := [.checkFlag, .delay, .fetch],
      rateLimitWarning := decide (s1.rateLimitCount + 1 > 5) }
  | .errOther =>
    { session := s1,
      result := { course := course, data := none, success := false },
      effects := [.checkFlag, .delay, .fetch], rateLimitWarning := false }

/-- `scrapeWithDelay` from `index.ts` lines 41-86, as a function of the
session at the abort check and the outcome the server would give: if
`abortRequested` is set the task resolves immediately with a failed
skip result and neither delays nor fetches; otherwise it sleeps, and
then performs the fetch and classifies its outcome. -/
def scrapeWithDelay (s : Session) (course : Nat) (o : FetchOutcome) : StepOut :=
  if s.abortRequested then skipOut s course
  else applyOutcome s course o

/-- The `asyncPool` callback of `index.ts` lines 193-199: re-check the
abort flag, then delegate to `scrapeWithDelay`. -/
def poolCallback (s : Session) (course : Nat) (o : FetchOutcome) : StepOut :=
  if s.abortRequested then skipOut s course
  else scrapeWithDelay s course o

/-! ## Bounded pool execution and the result drain loop -/

/-- Scheduling events of one pool run: task `i` is admitted (its
synchronous abort check runs), or task `i` completes (its fetch
outcome, if it was admitted live, is applied to the session and its
result is yielded to the drain). -/
inductive PoolEv
  | start (i : Nat)
  | finish (i : Nat)
deriving DecidableEq, Repr

/-- State of a pool execution: the shared session, which admitted
tasks passed their abort check, and the results yielded so far, each
paired with the abort-flag value visible to the drain right after it
is processed. -/
structure ExecState where
  session : Session
  live : List (Nat × Bool)
  yields : List (ScrapeResult × Bool)
deriving Repr

/-- One scheduling event. Admission records the abort check of
`poolCallback`/`scrapeWithDelay` (lines 195 and 48 of `index.ts`);
there is no re-check between the pacing sleep and the fetch, so a
task found live at admission applies its outcome at completion even
if the flag was set in between, while a task found aborted resolves
as a skip that touches no counter. -/
def execStart (st : ExecState) (i : Nat) : ExecState :=
  { st with live := st.live ++ [(i, !st.session.abortRequested)] }

def execFinish (plan : List FetchOutcome) (st : ExecState) (i : Nat) : ExecState :=
  if (st.live.lookup i).getD false then
    let out := applyOutcome st.session i (plan.getD i .errOther)
    { st with session := out.session,
              yields := st.yields ++ [(out.result, out.session.abortRequested)] }
  else
    { st with
      yields := st.yields ++
        [({ course := i, data := none, success := false }, st.session.abortRequested)] }

def execStep (plan : List FetchOutcome) (st : ExecState) : PoolEv → ExecState
  | .start i => execStart st i
  | .finish i => execFinish plan st i

/-- Run a whole event schedule. -/
def poolExec (plan : List FetchOutcome) : List PoolEv → ExecState → ExecState
  | [], st => st
  | ev :: rest, st => poolExec plan rest (execStep plan st ev)

/-- Pool run of a term from a freshly supplied session. -/
def poolRun (s : Session) (plan : List FetchOutcome) (events : List PoolEv) : ExecState :=
  poolExec plan events { session := s, live := [], yields := [] }

/-- Task indices of the finish events, in order. -/
def finishIndices (events : List PoolEv) : List Nat :=
  events.filterMap (fun ev => match ev with | .finish i => some i | _ => none)

/-- Task indices of the start events, in order. -/
def startIndices (events : List PoolEv) : List Nat :=
  events.filterMap (fun ev => match ev with | .start i => some i | _ => none)

/-- Running in-flight check: scanning the events, every finish was
started before, no task starts or finishes twice, and never more than
`conc` tasks are in flight at once. -/
def windowOk (conc : Nat) : List PoolEv → List Nat → List Nat → Bool
  | [], _, _ => true
  | .start i :: rest, started, finished =>
    !(decide (i ∈ started)) && decide (started.length - finished.length < conc) &&
      windowOk conc rest (i :: started) finished
  | .finish i :: rest, started, finished =>
    decide (i ∈ started) && !(decide (i ∈ finished)) &&
      windowOk conc rest started (i :: finished)

/-- A schedule is a valid execution of `asyncPool(conc, plan, ...)`
when every task of the plan starts exactly once and finishes exactly
once, admission follows the input order, each finish follows its
start, and at most `conc` tasks are ever in flight. -/
def validExec (conc : Nat) (plan : List FetchOutcome) (events : List PoolEv) : Bool :=
  decide (startIndices events = List.range plan.length) &&
    decide ((finishIndices events).length = plan.length) &&
    windowOk conc events [] []

/-- Aggregation state of the drain loop of `index.ts` lines 180-229:
the keyed course map and the success / failure / completed counters. -/
structure Agg where
  coursesMap : List (Nat × Nat)
  successCount : Nat
  failureCount : Nat
  completed : Nat
deriving DecidableEq, Repr

/-- Empty aggregation state. -/
def initAgg : Agg := { coursesMap := [], successCount := 0, failureCount := 0, completed := 0 }

/-- JavaScript object assignment `coursesMap[key] = value`: replace an
existing binding, otherwise append a new one. -/
def upsertCourse (m : List (Nat × Nat)) (k v : Nat) : List (Nat × Nat) :=
  if (m.lookup k).isSome then m.map (fun kv => if kv.1 = k then (k, v) else kv)
  else m ++ [(k, v)]

/-- The body of the drain loop for one yielded result (lines 203-212):
count it, and when it is a success carrying data store the converted
course under its key. -/
def processResult (agg : Agg) (r : ScrapeResult) : Agg :=
  if r.success && r.data.isSome then
    { agg with coursesMap := upsertCourse agg.coursesMap r.course (r.data.getD 0),
               successCount := agg.successCount + 1,
               completed := agg.completed + 1 }
  else
    { agg with failureCount := agg.failureCount + 1, completed := agg.completed + 1 }

/-- The `for await` drain loop of `index.ts` lines 202-229: process
each yielded result in arrival order, and break out of the loop as
soon as the abort flag is observed set after processing a result;
results still pending after the break are never read. -/
def drainLoop (agg : Agg) : List (ScrapeResult × Bool) → Agg
  | [] => agg
  | (r, flag) :: rest =>
    let agg1 := processResult agg r
    if flag then agg1 else drainLoop agg1 rest

/-- The yielded results the drain actually reads: the prefix up to and
including the first result processed with the abort flag visible. -/
def drainedResults : List (ScrapeResult × Bool) → List (ScrapeResult × Bool)
  | [] => []
  | (r, flag) :: rest => (r, flag) :: (if flag then [] else drainedResults rest)

/-! ## The per-term main loop (`index.ts`, `main`) -/

/-- One term as fed to the pool: the planned fetch outcome of each
discovered course and the schedule its pool run follows. An empty
plan models a term whose discovery found no courses, which `main`
skips with `continue` before any session reset. -/
structure TermScenario where
  plan : List FetchOutcome
  events : List PoolEv

/-- Observable state of one `main` run: the shared session, the term
dataset files written so far as (term id, stored course count) pairs,
the `allTermData` index entries, whether `process.exit` ran and with
which code, and whether `index.json` was written. -/
structure RunState where
  session : Session
  written : List (Nat × Nat)
  allTermData : List Nat
  exited : Option Nat
  indexWritten : Bool
deriving DecidableEq, Repr

/-- Run state at program start. -/
def initRunState : RunState :=
  { session := initialSession, written := [], allTermData := [],
    exited := none, indexWritten := false }

/-- The per-term reset of `index.ts` lines 188-190: only
`abortRequested` and `forbidden403Count` are cleared;
`rateLimitCount` and `totalRequests` are module-level and keep their
values across terms. -/
def resetForTerm (s : Session) : Session :=
  { s with abortRequested := false, forbidden403Count := 0 }

/-- One iteration of the `for` loop over terms in `main` (lines
119-288): skip empty discoveries, reset the per-term part of the
session, run the pool and drain its results, and afterwards either
take the abort branch (write partial data when any success was
aggregated, then `process.exit(1)`) or write the term dataset and
continue. Once `process.exit` has run nothing further happens. -/
def runTerm (st : RunState) (tid : Nat) (sc : TermScenario) : RunState :=
  if st.exited.isSome then st
  else if sc.plan.isEmpty then st
  else
    let s0 := resetForTerm st.session
    let ex := poolRun s0 sc.plan sc.events
    let agg := drainLoop initAgg ex.yields
    if ex.session.abortRequested then
      if agg.successCount > 0 then
        { st with session := ex.session,
                  written := st.written ++ [(tid, agg.coursesMap.length)],
                  allTermData := st.allTermData ++ [tid],
                  exited := some 1 }
      else
        { st with session := ex.session, exited := some 1 }
    else
      { st with session := ex.session,
                written := st.written ++ [(tid, agg.coursesMap.length)],
                allTermData := st.allTermData ++ [tid] }

/-- `main` over a list of term scenarios: process the terms in order,
then — only if the process has not already exited — write
`index.json` when at least one term produced data, and finish with
exit status 0. -/
def mainRun (terms : List (Nat × TermScenario)) : RunState :=
  let fin := terms.foldl (fun st t => runTerm st t.1 t.2) initRunState
  if fin.exited.isSome then fin
  else if !fin.allTermData.isEmpty then
    { fin with indexWritten := true, exited := some 0 }
  else
    { fin with exited := some 0 }

/-! ## Lemmas about the term-planning walk -/

theorem walkSteps_length : ∀ (n idx : Nat) (y : Int), (walkSteps n idx y).length = n := by
  intro n
  induction n with
  | zero => intro idx y; rfl
  | succ n ih =>
    intro idx y
    unfold walkSteps
    split_ifs <;> simp [ih]

theorem walkSteps_head (n idx : Nat) (y : Int) (d : Int × String) :
    (walkSteps (n + 1) idx y).headD d = (y, termOrder.getD idx "") := by
  unfold walkSteps
  split_ifs <;> rfl

theorem walkSteps_succ_zero (n : Nat) (y : Int) :
    walkSteps (n + 1) 0 y = (y, "spring") :: walkSteps n 3 (y - 1) := rfl

theorem walkSteps_succ_one (n : Nat) (y : Int) :
    walkSteps (n + 1) 1 y = (y, "summer") :: walkSteps n 0 y := rfl

theorem walkSteps_succ_two (n : Nat) (y : Int) :
    walkSteps (n + 1) 2 y = (y, "fall") :: walkSteps n 1 y := rfl

theorem walkSteps_succ_three (n : Nat) (y : Int) :
    walkSteps (n + 1) 3 y = (y, "winter") :: walkSteps n 2 y := rfl

theorem cyclePos_cycleNext (p : Int × String) : cyclePos (cycleNext p) = cyclePos p + 1 := by
  rcases p with ⟨y, t⟩
  unfold cycleNext cyclePos termIdx
  split_ifs with h1 h2 h3 <;> simp_all <;> ring

theorem cycleNext_year (p : Int × String) :
    p.1 = (if (cycleNext p).2 = "spring" then (cycleNext p).1 - 1 else (cycleNext p).1) := by
  rcases p with ⟨y, t⟩
  unfold cycleNext
  split_ifs with h1 h2 h3 <;> simp_all

theorem walkSteps_chain :
    ∀ (n idx : Nat) (y : Int), idx < 4 →
      List.Chain' (fun a b => cycleNext b = a) (walkSteps n idx y) := by
  intro n
  induction n with
  | zero => intro idx y _; simp [walkSteps]
  | succ n ih =>
    intro idx y h
    interval_cases idx
    · rw [walkSteps_succ_zero, List.chain'_cons']
      refine ⟨?_, ih 3 (y - 1) (by norm_num)⟩
      intro b hb
      cases n with
      | zero => simp [walkSteps] at hb
      | succ m =>
        rw [walkSteps_succ_three] at hb
        simp only [List.head?_cons, Option.mem_some_iff] at hb
        subst hb
        simp [cycleNext, termOrder]
    · rw [walkSteps_succ_one, List.chain'_cons']
      refine ⟨?_, ih 0 y (by norm_num)⟩
      intro b hb
      cases n with
      | zero => simp [walkSteps] at hb
      | succ m =>
        rw [walkSteps_succ_zero] at hb
        simp only [List.head?_cons, Option.mem_some_iff] at hb
        subst hb
        simp [cycleNext, termOrder]
    · rw [walkSteps_succ_two, List.chain'_cons']
      refine ⟨?_, ih 1 y (by norm_num)⟩
      intro b hb
      cases n with
      | zero => simp [walkSteps] at hb
      | succ m =>
        rw [walkSteps_succ_one] at hb
        simp only [List.head?_cons, Option.mem_some_iff] at hb
        subst hb
        simp [cycleNext, termOrder]
    · rw [walkSteps_succ_three, List.chain'_cons']
      refine ⟨?_, ih 2 y (by norm_num)⟩
      intro b hb
      cases n with
      | zero => simp [walkSteps] at hb
      | succ m =>
        rw [walkSteps_succ_two] at hb
        simp only [List.head?_cons, Option.mem_some_iff] at hb
        subst hb
        simp [cycleNext, termOrder]

theorem startIdx_lt (m : Nat) : termOrder.indexOf (currentTermOf m) < 4 := by
  unfold currentTermOf
  split_ifs <;> decide

/-- Strict descent along the cycle positions, as a named relation so
that transitivity is available to `chain'_iff_pairwise`. -/
def posDesc (a b : Int × String) : Prop := cyclePos b < cyclePos a

instance : IsTrans (Int × String) posDesc :=
  ⟨fun _ _ _ h1 h2 => lt_trans h2 h1⟩

theorem chain_to_pairwise {l : List (Int × String)}
    (h : List.Chain' (fun a b => cycleNext b = a) l) :
    List.Pairwise (fun a b => cyclePos b < cyclePos a) l := by
  have h2 : List.Chain' posDesc l := by
    refine h.imp (fun a b hab => ?_)
    unfold posDesc
    rw [← hab, cyclePos_cycleNext]
    omega
  exact (List.chain'_iff_pairwise.mp h2).imp (fun hab => hab)

/-- C5: for every count `n ≥ 0`, planning terms without an explicit
list returns exactly `n` (year, term) pairs, consecutive pairs differ
by exactly one backward step of the fixed cycle spring, summer, fall,
winter, next year's spring (so the list is strictly descending in
cycle position), there is no duplicate pair, and count 0 yields the
empty list. -/
theorem planTerms_count_and_descending (y : Int) (m n : Nat) :
    (generateTermsToScrape y m n).length = n ∧
    generateTermsToScrape y m 0 = [] ∧
    List.Chain' (fun a b => cycleNext b = a) (generateTermsToScrape y m n) ∧
    List.Pairwise (fun a b => cyclePos b < cyclePos a) (generateTermsToScrape y m n) ∧
    (generateTermsToScrape y m n).Nodup := by
  have hc : List.Chain' (fun a b => cycleNext b = a) (generateTermsToScrape y m n) :=
    walkSteps_chain n (termOrder.indexOf (currentTermOf m)) y (startIdx_lt m)
  have hp := chain_to_pairwise hc
  refine ⟨walkSteps_length n _ y, rfl, hc, hp, ?_⟩
  refine hp.imp (fun hab => ?_)
  intro he
  subst he
  exact lt_irrefl _ hab

/-- C6: along the backward walk the year of the next emitted pair is
the current year minus one exactly when the pair just emitted is a
spring (the walk crossing from spring back to the prior winter, which
is also the wrap past the start of the cycle list, since spring sits
at index 0), and is unchanged otherwise; the first emitted pair
carries the starting year, so every pair uses the year value of its
own position at emission time. -/
theorem planTerms_year_decrement (y : Int) (m n : Nat) :
    List.Chain' (fun a b => b.1 = (if a.2 = "spring" then a.1 - 1 else a.1))
      (generateTermsToScrape y m n) ∧
    ((generateTermsToScrape y m n).headD (y, "")).1 = y := by
  constructor
  · refine (walkSteps_chain n _ y (startIdx_lt m)).imp (fun a b hab => ?_)
    rw [← hab]
    exact cycleNext_year b
  · cases n with
    | zero => rfl
    | succ k =>
      show ((walkSteps (k + 1) (termOrder.indexOf (currentTermOf m)) y).headD (y, "")).1 = y
      rw [walkSteps_head]

/-- C8: `getTermCode` concatenates the year with the fixed two-digit
code of the table spring 02, summer 05, fall 08, winter 12 — in
particular `getTermCode "2025" "fall"` is `"202508"` — and it fails
with the invalid-term error instead of returning a value for every
term name whose lowercasing is missing from the table. -/
theorem getTermCode_table (y t c : String)
    (hsome : termCodes.lookup (jsToLower t) = some c)
    (t2 : String) (hnone : termCodes.lookup (jsToLower t2) = none) :
    getTermCode "2025" "fall" = .ok "202508" ∧
    getTermCode y t = .ok (y ++ c) ∧
    getTermCode y t2 = .error ("Invalid term: " ++ t2) := by
  refine ⟨rfl, ?_, ?_⟩ <;> simp [getTermCode, hsome, hnone]

/-- Witness for `getTermCode_table` at the spec's own examples,
year 2025 with the recognized name fall and the unrecognized name
bogus. -/
theorem getTermCode_table_witness :
    getTermCode "2025" "fall" = .ok "202508" ∧
    getTermCode "2025" "bogus" = .error ("Invalid term: " ++ "bogus") := by
  have h := getTermCode_table "2025" "fall" "08" rfl "bogus" rfl
  exact ⟨h.1, h.2.2⟩

/-- C9: for every random sample `u` in the unit interval (so every
jitter sample `u * 2 - 1` in `[-1, 1]`), the delay computed by
`sleep` equals the spec formula `max(100, ms + ms * jitter * sample)`,
and at base 1000 with jitter fraction 0.3 it always lies in
`[100, 1300]`, never below the 100 floor. -/
theorem sleep_delay_formula_and_bounds (ms jp u : ℚ) (_h0 : 0 ≤ u) (h1 : u ≤ 1) :
    sleepDelay ms jp u = specDelayFor ms jp (u * 2 - 1) ∧
    100 ≤ sleepDelay 1000 (3/10) u ∧
    sleepDelay 1000 (3/10) u ≤ 1300 := by
  refine ⟨rfl, le_max_left _ _, ?_⟩
  unfold sleepDelay
  refine max_le (by norm_num) ?_
  nlinarith

/-- Witness for `sleep_delay_formula_and_bounds` at the sample
one half. -/
theorem sleep_delay_formula_and_bounds_witness :
    sleepDelay 1000 (3/10) (1/2) = specDelayFor 1000 (3/10) ((1/2) * 2 - 1) ∧
    100 ≤ sleepDelay 1000 (3/10) (1/2) ∧
    sleepDelay 1000 (3/10) (1/2) ≤ 1300 :=
  sleep_delay_formula_and_bounds 1000 (3/10) (1/2) (by norm_num) (by norm_num)

/-- C10: when an environment variable is set to a string that does
not parse as an integer, `getIntConfig` returns NaN rather than null
(the catch branch is unreachable because `parseInt` never throws), so
the nullish-coalesced default, such as `CONCURRENCY` defaulting to 2,
applies only when the variable is absent, not when it is malformed. -/
theorem getIntConfig_nan_not_null (s : String) (h : jsParseInt s = .nan) :
    getIntConfig (some s) = some JSNumber.nan ∧
    getIntConfig (some s) ≠ none ∧
    nullishOr (getIntConfig (some s)) (.int 2) = JSNumber.nan ∧
    nullishOr (getIntConfig none) (.int 2) = JSNumber.int 2 := by
  simp [getIntConfig, nullishOr, h]

/-- Witness for `getIntConfig_nan_not_null` at the non-numeric
value abc. -/
theorem getIntConfig_nan_not_null_witness :
    getIntConfig (some "abc") = some JSNumber.nan ∧
    getIntConfig (some "abc") ≠ none ∧
    nullishOr (getIntConfig (some "abc")) (.int 2) = JSNumber.nan ∧
    nullishOr (getIntConfig none) (.int 2) = JSNumber.int 2 :=
  getIntConfig_nan_not_null "abc" (by decide)

/-- C7: a 429 outcome on a live task increments `rateLimitCount` by
one, never touches the abort flag or the 403 counter, so dispatching
continues, and the advisory excessive-rate-limit warning is printed
exactly when the incremented count exceeds 5, without aborting. -/
theorem err429_counts_never_aborts (s : Session) (c : Nat)
    (h : s.abortRequested = false) :
    (scrapeWithDelay s c .err429).session.rateLimitCount = s.rateLimitCount + 1 ∧
    (scrapeWithDelay s c .err429).session.abortRequested = false ∧
    (scrapeWithDelay s c .err429).session.forbidden403Count = s.forbidden403Count ∧
    (scrapeWithDelay s c .err429).result.success = false ∧
    (scrapeWithDelay s c .err429).rateLimitWarning = decide (5 < s.rateLimitCount + 1) := by
  simp [scrapeWithDelay, applyOutcome, h]

/-- Witness for `err429_counts_never_aborts` in a session that
already saw five rate limits, where the sixth 429 makes the advisory
warning observable while the abort flag stays clear. -/
theorem err429_counts_never_aborts_witness :
    (scrapeWithDelay ⟨10, 5, 0, false⟩ 0 .err429).session.rateLimitCount = 5 + 1 ∧
    (scrapeWithDelay ⟨10, 5, 0, false⟩ 0 .err429).session.abortRequested = false ∧
    (scrapeWithDelay ⟨10, 5, 0, false⟩ 0 .err429).session.forbidden403Count = 0 ∧
    (scrapeWithDelay ⟨10, 5, 0, false⟩ 0 .err429).result.success = false ∧
    (scrapeWithDelay ⟨10, 5, 0, false⟩ 0 .err429).rateLimitWarning = decide (5 < 5 + 1) :=
  err429_counts_never_aborts ⟨10, 5, 0, false⟩ 0 rfl

/-- C2: a task that consults the abort flag and finds it set resolves
to an immediate skip result with no fetch effect, no pacing delay and
an unchanged session, both in the pool callback and in
`scrapeWithDelay` itself; a fetch effect ever appearing in a trace
forces the flag to have been clear at the check with the check
strictly before the delay and the fetch, so the flag is consulted
before issuing each request and never after; and inside a pool run a
task admitted with the flag set is recorded dead, and a dead task's
completion leaves the shared session untouched. -/
theorem abort_flag_blocks_new_fetches
    (s s2 : Session) (c c2 : Nat) (o o2 : FetchOutcome)
    (plan : List FetchOutcome) (st : ExecState) (i : Nat)
    (h : s.abortRequested = true)
    (hf : Effect.fetch ∈ (scrapeWithDelay s2 c2 o2).effects)
    (hab : st.session.abortRequested = true)
    (hdead : (st.live.lookup i).getD false = false) :
    poolCallback s c o = skipOut s c ∧
    scrapeWithDelay s c o = skipOut s c ∧
    (scrapeWithDelay s c o).effects = [Effect.checkFlag] ∧
    Effect.fetch ∉ (scrapeWithDelay s c o).effects ∧
    Effect.delay ∉ (scrapeWithDelay s c o).effects ∧
    (scrapeWithDelay s c o).session = s ∧
    s2.abortRequested = false ∧
    (scrapeWithDelay s2 c2 o2).effects = [Effect.checkFlag, Effect.delay, Effect.fetch] ∧
    (execStep plan st (.start i)).live = st.live ++ [(i, false)] ∧
    (execStep plan st (.finish i)).session = st.session := by
  have hs2 : s2.abortRequested = false := by
    by_contra hcon
    rw [Bool.not_eq_false] at hcon
    simp [scrapeWithDelay, skipOut, hcon] at hf
  refine ⟨?_, ?_, ?_, ?_, ?_, ?_, hs2, ?_, ?_, ?_⟩
  · simp [poolCallback, h]
  · simp [scrapeWithDelay, h]
  · simp [scrapeWithDelay, skipOut, h]
  · simp [scrapeWithDelay, skipOut, h]
  · simp [scrapeWithDelay, skipOut, h]
  · simp [scrapeWithDelay, skipOut, h]
  · cases o2 <;> simp [scrapeWithDelay, applyOutcome, hs2]
  · simp [execStep, execStart, hab]
  · simp [execStep, execFinish, hdead]

/-- Witness for `abort_flag_blocks_new_fetches`: a tripped session
skips, a fresh session's successful task does check, delay, fetch in
that order, and a pool whose session is tripped admits dead tasks. -/
theorem abort_flag_blocks_new_fetches_witness :
    poolCallback ⟨3, 0, 1, true⟩ 0 (.ok 1) = skipOut ⟨3, 0, 1, true⟩ 0 ∧
    (scrapeWithDelay initialSession 1 (.ok 1)).effects =
      [Effect.checkFlag, Effect.delay, Effect.fetch] ∧
    (execStep [] ⟨⟨3, 0, 1, true⟩, [], []⟩ (.start 0)).live = [(0, false)] := by
  have h := abort_flag_blocks_new_fetches ⟨3, 0, 1, true⟩ initialSession 0 1 (.ok 1) (.ok 1)
    [] ⟨⟨3, 0, 1, true⟩, [], []⟩ 0 rfl (by decide) rfl (by decide)
  exact ⟨h.1, h.2.2.2.2.2.2.2.1, h.2.2.2.2.2.2.2.2.1⟩

/-! ## Lemmas about pool executions and the drain loop -/

theorem applyOutcome_course (s : Session) (c : Nat) (o : FetchOutcome) :
    (applyOutcome s c o).result.course = c := by
  cases o <;> rfl

theorem poolExec_cons (plan : List FetchOutcome) (ev : PoolEv) (rest : List PoolEv)
    (st : ExecState) :
    poolExec plan (ev :: rest) st = poolExec plan rest (execStep plan st ev) := rfl

theorem execStep_start_yields (plan : List FetchOutcome) (st : ExecState) (i : Nat) :
    (execStep plan st (.start i)).yields = st.yields := rfl

theorem execStep_finish_map (plan : List FetchOutcome) (st : ExecState) (i : Nat) :
    (execStep plan st (.finish i)).yields.map (fun rb => rb.1.course) =
      st.yields.map (fun rb => rb.1.course) ++ [i] := by
  show (execFinish plan st i).yields.map (fun rb => rb.1.course) = _
  unfold execFinish
  split_ifs with hl <;> simp [applyOutcome_course]

theorem finishIndices_start (i : Nat) (rest : List PoolEv) :
    finishIndices (.start i :: rest) = finishIndices rest := rfl

theorem finishIndices_finish (i : Nat) (rest : List PoolEv) :
    finishIndices (.finish i :: rest) = i :: finishIndices rest := rfl

theorem poolExec_yields_map (plan : List FetchOutcome) :
    ∀ (evs : List PoolEv) (st : ExecState),
      (poolExec plan evs st).yields.map (fun rb => rb.1.course) =
        st.yields.map (fun rb => rb.1.course) ++ finishIndices evs := by
  intro evs
  induction evs with
  | nil => intro st; simp [poolExec, finishIndices]
  | cons ev rest ih =>
    intro st
    cases ev with
    | start i =>
      rw [poolExec_cons, ih, finishIndices_start]
      rw [show (execStep plan st (.start i)).yields = st.yields from rfl]
    | finish i =>
      rw [poolExec_cons, ih, finishIndices_finish, execStep_finish_map]
      simp

theorem windowOk_nodup :
    ∀ (evs : List PoolEv) (conc : Nat) (started finished : List Nat),
      windowOk conc evs started finished = true →
      (finishIndices evs).Nodup ∧ ∀ j ∈ finishIndices evs, j ∉ finished := by
  intro evs
  induction evs with
  | nil => intro conc started finished _; simp [finishIndices]
  | cons ev rest ih =>
    intro conc started finished h
    cases ev with
    | start i =>
      rw [show windowOk conc (.start i :: rest) started finished =
        (!(decide (i ∈ started)) && decide (started.length - finished.length < conc) &&
          windowOk conc rest (i :: started) finished) from rfl] at h
      simp only [Bool.and_eq_true] at h
      rw [finishIndices_start]
      exact ih conc (i :: started) finished h.2
    | finish i =>
      rw [show windowOk conc (.finish i :: rest) started finished =
        (decide (i ∈ started) && !(decide (i ∈ finished)) &&
          windowOk conc rest started (i :: finished)) from rfl] at h
      simp only [Bool.and_eq_true, Bool.not_eq_true', decide_eq_true_eq,
        decide_eq_false_iff_not] at h
      obtain ⟨⟨_, hnf⟩, hrest⟩ := h
      obtain ⟨hnd, hmem⟩ := ih conc started (i :: finished) hrest
      rw [finishIndices_finish]
      constructor
      · rw [List.nodup_cons]
        refine ⟨fun hin => ?_, hnd⟩
        exact (hmem i hin) (List.mem_cons_self i finished)
      · intro j hj
        rcases List.mem_cons.mp hj with rfl | hj2
        · exact hnf
        · intro hjf
          exact (hmem j hj2) (List.mem_cons_of_mem i hjf)

theorem upsertCourse_fresh (m : List (Nat × Nat)) (k v : Nat)
    (h : m.lookup k = none) :
    upsertCourse m k v = m ++ [(k, v)] := by
  unfold upsertCourse
  simp [h]

theorem lookup_snoc_ne (m : List (Nat × Nat)) (k k' v : Nat) (hne : k' ≠ k)
    (h : m.lookup k' = none) :
    (m ++ [(k, v)]).lookup k' = none := by
  induction m with
  | nil => simp [List.lookup, beq_eq_false_iff_ne.mpr hne]
  | cons a rest ih =>
    obtain ⟨a1, a2⟩ := a
    cases hbeq : k' == a1 with
    | true =>
      rw [List.lookup_cons, hbeq] at h
      exact absurd h (by simp)
    | false =>
      rw [List.lookup_cons, hbeq] at h
      rw [List.cons_append, List.lookup_cons, hbeq]
      simp only [Bool.false_eq_true, if_false] at h ⊢
      exact ih h

theorem drainLoop_count :
    ∀ (rl : List (ScrapeResult × Bool)) (agg : Agg),
      (rl.map (fun rb => rb.1.course)).Nodup →
      (∀ k, k ∈ rl.map (fun rb => rb.1.course) → agg.coursesMap.lookup k = none) →
      (drainLoop agg rl).coursesMap.length =
        agg.coursesMap.length +
          ((drainedResults rl).filter (fun rb => rb.1.success && rb.1.data.isSome)).length := by
  intro rl
  induction rl with
  | nil => intro agg _ _; simp [drainLoop, drainedResults]
  | cons rb rest ih =>
    intro agg hnd hfresh
    obtain ⟨r, flag⟩ := rb
    rw [show drainLoop agg ((r, flag) :: rest) =
      (if flag then processResult agg r else drainLoop (processResult agg r) rest) from rfl]
    rw [show drainedResults ((r, flag) :: rest) =
      (r, flag) :: (if flag then [] else drainedResults rest) from rfl]
    simp only [List.map_cons, List.nodup_cons] at hnd
    have hfr : agg.coursesMap.lookup r.course = none :=
      hfresh r.course (by simp)
    by_cases hs : (r.success && r.data.isSome) = true
    · have hmap : (processResult agg r).coursesMap =
          agg.coursesMap ++ [(r.course, r.data.getD 0)] := by
        unfold processResult
        rw [if_pos hs]
        exact upsertCourse_fresh _ _ _ hfr
      cases flag with
      | true =>
        rw [if_pos rfl, if_pos rfl, hmap]
        simp [hs]
      | false =>
        rw [if_neg (by simp), if_neg (by simp)]
        rw [ih (processResult agg r) hnd.2 ?_]
        · rw [hmap]
          simp only [List.filter_cons, hs]
          simp [Nat.add_comm, Nat.add_assoc, Nat.add_left_comm]
        · intro k hk
          rw [hmap]
          refine lookup_snoc_ne _ _ _ _ ?_ (hfresh k (by simp [hk]))
          intro he
          exact hnd.1 (he ▸ hk)
    · have hmap : (processResult agg r).coursesMap = agg.coursesMap := by
        unfold processResult
        rw [if_neg hs]
      cases flag with
      | true =>
        rw [if_pos rfl, if_pos rfl, hmap]
        simp [hs]
      | false =>
        rw [if_neg (by simp), if_neg (by simp)]
        rw [ih (processResult agg r) hnd.2 ?_]
        · rw [hmap]
          simp only [List.filter_cons, hs]
          simp
        · intro k hk
          rw [hmap]
          exact hfresh k (by simp [hk])

/-- C1 as the spec states it is false: in the valid two-task
execution with concurrency 2 where the first task hits a 403 and the
in-flight second task completes successfully afterwards, the drain
loop breaks after processing the 403 result, so the dataset holds 0
courses although 1 Success outcome was observed during the drain —
an in-flight success is dropped from aggregation. -/
theorem drain_drops_inflight_success :
    validExec 2 [FetchOutcome.err403, .ok 7]
      [PoolEv.start 0, .start 1, .finish 0, .finish 1] = true ∧
    (drainLoop initAgg (poolRun initialSession [FetchOutcome.err403, .ok 7]
      [PoolEv.start 0, .start 1, .finish 0, .finish 1]).yields).coursesMap.length = 0 ∧
    ((poolRun initialSession [FetchOutcome.err403, .ok 7]
      [PoolEv.start 0, .start 1, .finish 0, .finish 1]).yields.filter
      (fun rb => rb.1.success)).length = 1 ∧
    (drainLoop initAgg (poolRun initialSession [FetchOutcome.err403, .ok 7]
      [PoolEv.start 0, .start 1, .finish 0, .finish 1]).yields).coursesMap.length ≠
      ((poolRun initialSession [FetchOutcome.err403, .ok 7]
        [PoolEv.start 0, .start 1, .finish 0, .finish 1]).yields.filter
        (fun rb => rb.1.success)).length := by
  decide

/-- C1 amended: in every valid pool execution each admitted task runs
to completion and yields a result (the yield count equals the plan
length, aborted or not), but the dataset aggregates only the drained
prefix: its course count equals the number of Success results yielded
up to and including the first result processed with the abort flag
visible; in-flight successes yielded after that break point are not
aggregated. -/
theorem drain_aggregates_drained_prefix (s : Session) (conc : Nat)
    (plan : List FetchOutcome) (events : List PoolEv)
    (h : validExec conc plan events = true) :
    (poolRun s plan events).yields.length = plan.length ∧
    (drainLoop initAgg (poolRun s plan events).yields).coursesMap.length =
      ((drainedResults (poolRun s plan events).yields).filter
        (fun rb => rb.1.success && rb.1.data.isSome)).length := by
  unfold validExec at h
  simp only [Bool.and_eq_true, decide_eq_true_eq] at h
  obtain ⟨⟨_, hlen⟩, hwin⟩ := h
  have hmap : (poolRun s plan events).yields.map (fun rb => rb.1.course) =
      finishIndices events := by
    rw [show poolRun s plan events =
      poolExec plan events { session := s, live := [], yields := [] } from rfl]
    rw [poolExec_yields_map]
    simp
  constructor
  · have := congrArg List.length hmap
    simpa using this.trans hlen
  · have hnd : ((poolRun s plan events).yields.map (fun rb => rb.1.course)).Nodup := by
      rw [hmap]
      exact (windowOk_nodup events conc [] [] hwin).1
    have := drainLoop_count (poolRun s plan events).yields initAgg hnd
      (fun k _ => by simp [initAgg])
    simpa [initAgg] using this

/-- Witness for `drain_aggregates_drained_prefix` on the concrete
aborting execution of the counterexample scenario. -/
theorem drain_aggregates_drained_prefix_witness :
    (poolRun initialSession [FetchOutcome.err403, .ok 7]
      [PoolEv.start 0, .start 1, .finish 0, .finish 1]).yields.length = 2 ∧
    (drainLoop initAgg (poolRun initialSession [FetchOutcome.err403, .ok 7]
      [PoolEv.start 0, .start 1, .finish 0, .finish 1]).yields).coursesMap.length =
      ((drainedResults (poolRun initialSession [FetchOutcome.err403, .ok 7]
        [PoolEv.start 0, .start 1, .finish 0, .finish 1]).yields).filter
        (fun rb => rb.1.success && rb.1.data.isSome)).length :=
  drain_aggregates_drained_prefix initialSession 2 [FetchOutcome.err403, .ok 7]
    [PoolEv.start 0, .start 1, .finish 0, .finish 1] (by decide)

/-! ## Lemmas about the per-term main loop -/

/-- The pool execution a term performs inside `runTerm`. -/
def termPool (st : RunState) (sc : TermScenario) : ExecState :=
  poolRun (resetForTerm st.session) sc.plan sc.events

/-- The aggregation the drain loop of a term produces inside
`runTerm`. -/
def termAgg (st : RunState) (sc : TermScenario) : Agg :=
  drainLoop initAgg (termPool st sc).yields

theorem runTerm_invariant (st : RunState) (tid : Nat) (sc : TermScenario)
    (h1 : st.exited = none ∨ st.exited = some 1) (h2 : st.indexWritten = false) :
    ((runTerm st tid sc).exited = none ∨ (runTerm st tid sc).exited = some 1) ∧
    (runTerm st tid sc).indexWritten = false := by
  simp only [runTerm]
  split_ifs <;> simp_all

theorem mainRun_fold_invariant :
    ∀ (terms : List (Nat × TermScenario)) (st : RunState),
      (st.exited = none ∨ st.exited = some 1) → st.indexWritten = false →
      ((terms.foldl (fun s t => runTerm s t.1 t.2) st).exited = none ∨
        (terms.foldl (fun s t => runTerm s t.1 t.2) st).exited = some 1) ∧
      (terms.foldl (fun s t => runTerm s t.1 t.2) st).indexWritten = false := by
  intro terms
  induction terms with
  | nil => intro st h1 h2; exact ⟨h1, h2⟩
  | cons t rest ih =>
    intro st h1 h2
    have step := runTerm_invariant st t.1 t.2 h1 h2
    exact ih (runTerm st t.1 t.2) step.1 step.2

theorem mainRun_index_iff (terms : List (Nat × TermScenario)) :
    (mainRun terms).indexWritten = true ↔
      ((mainRun terms).exited = some 0 ∧ (mainRun terms).allTermData.isEmpty = false) := by
  have inv := mainRun_fold_invariant terms initRunState (Or.inl rfl) rfl
  simp only [mainRun]
  obtain ⟨hex, hidx⟩ := inv
  rcases hex with hex | hex
  · rw [hex]
    simp only [Option.isSome_none, Bool.false_eq_true, if_false]
    by_cases hdata :
        (terms.foldl (fun s t => runTerm s t.1 t.2) initRunState).allTermData.isEmpty
    · simp [hdata, hidx]
    · simp [hdata]
  · rw [hex]
    simp [hidx, hex]

/-- C3 as the spec states it is false on aborted runs: in the
single-term run where the second of two courses hits a 403 after the
first succeeded, the partial dataset file is written and the process
exits with status 1, but `index.json` is never written even though a
dataset was produced — `process.exit(1)` in the abort branch runs
before the index-writing step at the end of `main`. -/
theorem abort_exits_without_index :
    (mainRun [(0, ⟨[FetchOutcome.ok 5, .err403],
      [PoolEv.start 0, .finish 0, .start 1, .finish 1]⟩)]).written = [(0, 1)] ∧
    (mainRun [(0, ⟨[FetchOutcome.ok 5, .err403],
      [PoolEv.start 0, .finish 0, .start 1, .finish 1]⟩)]).exited = some 1 ∧
    (mainRun [(0, ⟨[FetchOutcome.ok 5, .err403],
      [PoolEv.start 0, .finish 0, .start 1, .finish 1]⟩)]).allTermData = [0] ∧
    (mainRun [(0, ⟨[FetchOutcome.ok 5, .err403],
      [PoolEv.start 0, .finish 0, .start 1, .finish 1]⟩)]).indexWritten = false := by
  decide

/-- C3 amended: a hard block trips the session abort flag and, when
any course was aggregated, the partial dataset is persisted and
indexed in `allTermData` — with every previously completed term's
written file preserved — before the process exits with status 1; the
index of produced datasets, however, is written (once, at the end) on
exactly those runs that finish with exit status 0 and at least one
produced dataset, never on an aborted run. -/
theorem hardblock_persists_then_exits (st : RunState) (tid : Nat) (sc : TermScenario)
    (terms : List (Nat × TermScenario))
    (h1 : st.exited = none)
    (h2 : sc.plan.isEmpty = false)
    (h3 : (termPool st sc).session.abortRequested = true)
    (h4 : (termAgg st sc).successCount > 0) :
    runTerm st tid sc =
      { st with session := (termPool st sc).session,
                written := st.written ++ [(tid, (termAgg st sc).coursesMap.length)],
                allTermData := st.allTermData ++ [tid],
                exited := some 1 } ∧
    ((mainRun terms).indexWritten = true ↔
      ((mainRun terms).exited = some 0 ∧ (mainRun terms).allTermData.isEmpty = false)) := by
  constructor
  · simp only [termAgg, termPool] at h3 h4
    simp only [runTerm, h1, h2, h3, h4]
    simp
    exact ⟨rfl, rfl⟩
  · exact mainRun_index_iff terms

/-- Witness for `hardblock_persists_then_exits`: the aborting
one-term scenario persists its single scraped course, exits 1, and a
completed one-term run does get its index written. -/
theorem hardblock_persists_then_exits_witness :
    runTerm initRunState 0 ⟨[FetchOutcome.ok 5, .err403],
        [PoolEv.start 0, .finish 0, .start 1, .finish 1]⟩ =
      { initRunState with
          session := (termPool initRunState ⟨[FetchOutcome.ok 5, .err403],
            [PoolEv.start 0, .finish 0, .start 1, .finish 1]⟩).session,
          written := [(0, 1)],
          allTermData := [0],
          exited := some 1 } ∧
    ((mainRun [(1, ⟨[FetchOutcome.ok 3], [PoolEv.start 0, .finish 0]⟩)]).indexWritten = true ↔
      ((mainRun [(1, ⟨[FetchOutcome.ok 3], [PoolEv.start 0, .finish 0]⟩)]).exited = some 0 ∧
        (mainRun [(1, ⟨[FetchOutcome.ok 3],
          [PoolEv.start 0, .finish 0]⟩)]).allTermData.isEmpty = false)) := by
  have h := hardblock_persists_then_exits initRunState 0
    ⟨[FetchOutcome.ok 5, .err403], [PoolEv.start 0, .finish 0, .start 1, .finish 1]⟩
    [(1, ⟨[FetchOutcome.ok 3], [PoolEv.start 0, .finish 0]⟩)]
    rfl (by decide) (by decide) (by decide)
  exact ⟨h.1.trans (by decide), h.2⟩

theorem execStep_counters_mono (plan : List FetchOutcome) (st : ExecState) (ev : PoolEv) :
    st.session.rateLimitCount ≤ (execStep plan st ev).session.rateLimitCount ∧
    st.session.totalRequests ≤ (execStep plan st ev).session.totalRequests := by
  cases ev with
  | start i => exact ⟨le_refl _, le_refl _⟩
  | finish i =>
    show st.session.rateLimitCount ≤ (execFinish plan st i).session.rateLimitCount ∧
      st.session.totalRequests ≤ (execFinish plan st i).session.totalRequests
    unfold execFinish
    split_ifs with hl
    · cases plan.getD i .errOther <;> simp [applyOutcome]
    · exact ⟨le_refl _, le_refl _⟩

theorem poolExec_counters_mono (plan : List FetchOutcome) :
    ∀ (evs : List PoolEv) (st : ExecState),
      st.session.rateLimitCount ≤ (poolExec plan evs st).session.rateLimitCount ∧
      st.session.totalRequests ≤ (poolExec plan evs st).session.totalRequests := by
  intro evs
  induction evs with
  | nil => intro st; exact ⟨le_refl _, le_refl _⟩
  | cons ev rest ih =>
    intro st
    have h1 := execStep_counters_mono plan st ev
    have h2 := ih (execStep plan st ev)
    exact ⟨le_trans h1.1 h2.1, le_trans h1.2 h2.2⟩

/-- C4 as stated is false: the per-term reset before the pool run
clears only the abort flag and the 403 counter, so after a term that
observed one 429 the session entering the next term's pool run has
`rateLimitCount` 1, not its initial state, and a full two-term run
still carries that count at the end. -/
theorem rateLimitCount_leaks_across_terms :
    (resetForTerm (runTerm initRunState 0
      ⟨[FetchOutcome.err429], [PoolEv.start 0, .finish 0]⟩).session).rateLimitCount = 1 ∧
    resetForTerm (runTerm initRunState 0
      ⟨[FetchOutcome.err429], [PoolEv.start 0, .finish 0]⟩).session ≠ initialSession ∧
    (mainRun [(0, ⟨[FetchOutcome.err429], [PoolEv.start 0, .finish 0]⟩),
      (1, ⟨[FetchOutcome.ok 3], [PoolEv.start 0, .finish 0]⟩)]).session.rateLimitCount = 1 := by
  decide

/-- C4 amended: at each term boundary the reset restores only
`abortRequested` and `forbidden403Count` to their initial state while
preserving `rateLimitCount` and `totalRequests`, and a term's
processing never lowers the two preserved counters, so they
accumulate across term boundaries for the whole run. -/
theorem session_reset_is_selective (s : Session) (st : RunState) (tid : Nat)
    (sc : TermScenario) :
    (resetForTerm s).abortRequested = false ∧
    (resetForTerm s).forbidden403Count = 0 ∧
    (resetForTerm s).rateLimitCount = s.rateLimitCount ∧
    (resetForTerm s).totalRequests = s.totalRequests ∧
    st.session.rateLimitCount ≤ (runTerm st tid sc).session.rateLimitCount ∧
    st.session.totalRequests ≤ (runTerm st tid sc).session.totalRequests := by
  have hm := poolExec_counters_mono sc.plan sc.events
    { session := resetForTerm st.session, live := [], yields := [] }
  have hm1 : st.session.rateLimitCount ≤
      (poolRun (resetForTerm st.session) sc.plan sc.events).session.rateLimitCount := hm.1
  have hm2 : st.session.totalRequests ≤
      (poolRun (resetForTerm st.session) sc.plan sc.events).session.totalRequests := hm.2
  refine ⟨rfl, rfl, rfl, rfl, ?_, ?_⟩ <;>
    (simp only [runTerm]; split_ifs <;> first | exact le_refl _ | exact hm1 | exact hm2)

end Crawler
